import Mathlib

/-! TodoList (app/(tabs)/index.jsx): task-list state machine

Shallow embedding of the `App` component of `TodoList/app/(tabs)/index.jsx`.

The component keeps three pieces of React state (`task`, `tasks`, `filter`) and
talks to three ambient services: `Alert.alert`, `console.error` and
`AsyncStorage`.  All of them are made explicit as fields of `AppState`; every
handler of the component becomes a function on `AppState`.  `Date.now()` and the
success or failure of an `AsyncStorage` call are inputs of the environment and
are passed as arguments.

JavaScript strings are modelled by Lean strings (sequences of Unicode scalar
values); lone UTF-16 surrogates are outside the model.
-/

namespace TodoList

/-! ## Data model -/

/-- One entry of `tasks`: the object literal `{ id, text, completed }`. -/
structure Task where
  id : String
  text : String
  completed : Bool
deriving DecidableEq, Repr

/-- The component state together with the ambient services it uses.
`task`, `tasks`, `filter` are the three `useState` cells; `alerts` records the
`Alert.alert(title, message)` calls, `errors` the first argument of the
`console.error` calls, `storage` the key/value content of `AsyncStorage`. -/
structure AppState where
  task : String
  tasks : List Task
  filter : String
  alerts : List (String × String)
  errors : List String
  storage : List (String × String)
deriving DecidableEq, Repr

/-- State of a freshly mounted component over a given storage:
`useState('')`, `useState([])`, `useState('all')`. -/
def initialState (storage : List (String × String)) : AppState :=
  { task := "", tasks := [], filter := "all", alerts := [], errors := [], storage := storage }

/-! ## `String.prototype.trim` -/

/-- ECMAScript `WhiteSpace` and `LineTerminator` code points, the characters
removed by `String.prototype.trim`. -/
def isJsWhiteSpace (c : Char) : Bool :=
  let n := c.toNat
  n == 0x09 || n == 0x0A || n == 0x0B || n == 0x0C || n == 0x0D || n == 0x20 ||
  n == 0xA0 || n == 0x1680 || (0x2000 ≤ n && n ≤ 0x200A) || n == 0x2028 || n == 0x2029 ||
  n == 0x202F || n == 0x205F || n == 0x3000 || n == 0xFEFF

/-- The method `s.trim()`: leading and trailing white space removed. -/
def jsTrim (s : String) : String :=
  String.mk ((s.data.dropWhile isJsWhiteSpace).reverse.dropWhile isJsWhiteSpace).reverse

/-! ## Handlers -/

/-- The handler `onChangeText={setTask}` of the input field. -/
def setTask (text : String) (st : AppState) : AppState :=
  { st with task := text }

/-- The handler `setFilter(f)` of the filter buttons. -/
def setFilter (f : String) (st : AppState) : AppState :=
  { st with filter := f }

/-- The handler `addTask`; `now` is the value returned by `Date.now()`. -/
def addTask (now : Int) (st : AppState) : AppState :=
  if jsTrim st.task = "" then
    { st with alerts := st.alerts ++ [("Error", "Task cannot be empty")] }
  else
    { st with
      tasks := st.tasks ++ [{ id := toString now, text := st.task, completed := false }]
      task := "" }

/-- The handler `editTask(id, newText)`. -/
def editTask (id newText : String) (st : AppState) : AppState :=
  { st with tasks := st.tasks.map (fun item => if item.id = id then { item with text := newText } else item) }

/-- The handler `toggleTaskCompletion(id)`. -/
def toggleTaskCompletion (id : String) (st : AppState) : AppState :=
  { st with
    tasks := st.tasks.map
      (fun item => if item.id = id then { item with completed := !item.completed } else item) }

/-- The handler `deleteTask(id)`. -/
def deleteTask (id : String) (st : AppState) : AppState :=
  { st with tasks := st.tasks.filter (fun item => item.id ≠ id) }

/-- The function `applyFilter()`: the list handed to `FlatList`, paired with the
state after the call (the function contains no state setter). -/
def applyFilter (st : AppState) : List Task × AppState :=
  if st.filter = "completed" then
    (st.tasks.filter (fun task => task.completed), st)
  else if st.filter = "pending" then
    (st.tasks.filter (fun task => !task.completed), st)
  else
    (st.tasks, st)

/-! ## `JSON.stringify` and `JSON.parse`

Both are modelled on JSON texts given as character lists.  `jsonStringify`
follows `SerializeJSONArray`, `SerializeJSONObject` and `QuoteJSONString` of
ECMA-262 for an array of task objects, called without replacer and without
indentation.  `jsonParse` is a recursive-descent parser for the JSON grammar.
-/

/-- Value produced by `JSON.parse`.  A number is kept as its lexeme. -/
inductive JValue where
  | null : JValue
  | bool (b : Bool) : JValue
  | num (lexeme : String) : JValue
  | str (s : String) : JValue
  | arr (elems : List JValue) : JValue
  | obj (members : List (String × JValue)) : JValue

/-- Lower-case hexadecimal digit of a number below 16. -/
def hexDigit (n : Nat) : Char :=
  if n < 10 then Char.ofNat (48 + n) else Char.ofNat (87 + n)

/-- `QuoteJSONString`, one code point: the two-character escapes of table 75,
`\u00xx` for the other control characters, the character itself otherwise. -/
def escapeChar (c : Char) : List Char :=
  if c = '"' then ['\\', '"']
  else if c = '\\' then ['\\', '\\']
  else if c = Char.ofNat 8 then ['\\', 'b']
  else if c = Char.ofNat 12 then ['\\', 'f']
  else if c = '\n' then ['\\', 'n']
  else if c = '\r' then ['\\', 'r']
  else if c = '\t' then ['\\', 't']
  else if c.toNat < 0x20 then ['\\', 'u', '0', '0', hexDigit (c.toNat / 16), hexDigit (c.toNat % 16)]
  else [c]

/-- The escaped body of a string. -/
def escapeChars : List Char → List Char
  | [] => []
  | c :: cs => escapeChar c ++ escapeChars cs

/-- `QuoteJSONString(s)`. -/
def quoteJSONString (s : String) : List Char :=
  '"' :: (escapeChars s.data ++ ['"'])

/-- `SerializeJSONObject` of a task object, whose own keys are `id`, `text`,
`completed` in this order. -/
def serializeTask (t : Task) : List Char :=
  ['\x7b', '"', 'i', 'd', '"', ':'] ++ quoteJSONString t.id ++
  [',', '"', 't', 'e', 'x', 't', '"', ':'] ++ quoteJSONString t.text ++
  [',', '"', 'c', 'o', 'm', 'p', 'l', 'e', 't', 'e', 'd', '"', ':'] ++
  (if t.completed then ['t', 'r', 'u', 'e'] else ['f', 'a', 'l', 's', 'e']) ++ ['\x7d']

/-- The elements after the first one, each preceded by a comma. -/
def serializeRest : List Task → List Char
  | [] => []
  | t :: ts => ',' :: (serializeTask t ++ serializeRest ts)

/-- `SerializeJSONArray` of a list of task objects. -/
def serializeTasks : List Task → List Char
  | [] => ['[', ']']
  | t :: ts => '[' :: (serializeTask t ++ serializeRest ts ++ [']'])

/-- `JSON.stringify(tasks)`. -/
def jsonStringify (tasks : List Task) : String :=
  String.mk (serializeTasks tasks)

/-- JSON insignificant white space: tab, line feed, carriage return, space. -/
def isJsonWs (c : Char) : Bool :=
  c = '\t' || c = '\n' || c = '\r' || c = ' '

/-- Skips insignificant white space. -/
def skipWs (cs : List Char) : List Char :=
  cs.dropWhile isJsonWs

/-- Value of a hexadecimal digit. -/
def hexVal (c : Char) : Option Nat :=
  let n := c.toNat
  if 48 ≤ n ∧ n ≤ 57 then some (n - 48)
  else if 97 ≤ n ∧ n ≤ 102 then some (n - 87)
  else if 65 ≤ n ∧ n ≤ 70 then some (n - 55)
  else none

/-- Value of four hexadecimal digits. -/
def hex4 (a b c d : Char) : Option Nat :=
  match hexVal a, hexVal b, hexVal c, hexVal d with
  | some x, some y, some z, some w => some (((x * 16 + y) * 16 + z) * 16 + w)
  | _, _, _, _ => none

/-- The character denoted by a single-character escape. -/
def unescape (e : Char) : Option Char :=
  if e = '"' then some '"'
  else if e = '\\' then some '\\'
  else if e = '/' then some '/'
  else if e = 'b' then some (Char.ofNat 8)
  else if e = 'f' then some (Char.ofNat 12)
  else if e = 'n' then some '\n'
  else if e = 'r' then some '\r'
  else if e = 't' then some '\t'
  else none

/-- Reads the characters of a JSON string after its opening quote, up to and
including the closing quote; returns the denoted characters and the remaining
input.  A `\u` escape of a surrogate code unit is outside the model. -/
def parseChars : List Char → Option (List Char × List Char)
  | [] => none
  | c :: rest =>
    if c = '"' then some ([], rest)
    else if c = '\\' then
      match rest with
      | [] => none
      | e :: rest2 =>
        if e = 'u' then
          match rest2 with
          | a :: b :: x :: d :: rest3 =>
            match hex4 a b x d with
            | some n =>
              if 0xD800 ≤ n ∧ n ≤ 0xDFFF then none
              else (parseChars rest3).map (fun r => (Char.ofNat n :: r.1, r.2))
            | none => none
          | _ => none
        else
          match unescape e with
          | some ch => (parseChars rest2).map (fun r => (ch :: r.1, r.2))
          | none => none
    else if c.toNat < 0x20 then none
    else (parseChars rest).map (fun r => (c :: r.1, r.2))

/-- Removes a literal from the front of the input. -/
def stripLit : List Char → List Char → Option (List Char)
  | [], cs => some cs
  | _ :: _, [] => none
  | l :: ls, c :: cs => if l = c then stripLit ls cs else none

/-- A non-empty run of decimal digits. -/
def parseDigits (cs : List Char) : Option (List Char × List Char) :=
  let r := cs.span Char.isDigit
  if r.1 = [] then none else some r

/-- The optional fraction part of a number. -/
def parseFrac (cs : List Char) : Option (List Char × List Char) :=
  match cs with
  | [] => some ([], [])
  | c :: rest =>
    if c = '.' then (parseDigits rest).map (fun r => ('.' :: r.1, r.2))
    else some ([], c :: rest)

/-- The optional exponent part of a number. -/
def parseExp (cs : List Char) : Option (List Char × List Char) :=
  match cs with
  | [] => some ([], [])
  | c :: rest =>
    if c = 'e' ∨ c = 'E' then
      match rest with
      | [] => none
      | s :: rest2 =>
        if s = '+' ∨ s = '-' then (parseDigits rest2).map (fun r => (c :: s :: r.1, r.2))
        else (parseDigits rest).map (fun r => (c :: r.1, r.2))
    else some ([], c :: rest)

/-- The integer part of a number: `0`, or a run of digits not starting with `0`. -/
def parseInt (cs : List Char) : Option (List Char × List Char) :=
  match cs with
  | [] => none
  | c :: rest => if c = '0' then some (['0'], rest) else parseDigits (c :: rest)

/-- A JSON number: its lexeme and the remaining input. -/
def parseNumber (cs : List Char) : Option (List Char × List Char) :=
  let signed : List Char × List Char :=
    match cs with
    | [] => ([], [])
    | c :: rest => if c = '-' then (['-'], rest) else ([], c :: rest)
  (parseInt signed.2).bind fun i =>
  (parseFrac i.2).bind fun f =>
  (parseExp f.2).map fun e => (signed.1 ++ i.1 ++ f.1 ++ e.1, e.2)

/-- The elements of an array after an element has been read: repeats
`, value` until the closing bracket. -/
def parseElementsTail (pv : List Char → Option (JValue × List Char)) :
    Nat → List Char → Option (List JValue × List Char)
  | 0, _ => none
  | n + 1, cs =>
    match skipWs cs with
    | [] => none
    | c :: rest =>
      if c = ']' then some ([], rest)
      else if c = ',' then
        (pv rest).bind fun v =>
        (parseElementsTail pv n v.2).map fun r => (v.1 :: r.1, r.2)
      else none

/-- An array after its opening bracket. -/
def parseArray (pv : List Char → Option (JValue × List Char)) (cs : List Char) :
    Option (List JValue × List Char) :=
  match skipWs cs with
  | [] => none
  | c :: rest =>
    if c = ']' then some ([], rest)
    else
      (pv (c :: rest)).bind fun v =>
      (parseElementsTail pv v.2.length v.2).map fun r => (v.1 :: r.1, r.2)

/-- One member `"key" : value` of an object. -/
def parseMember (pv : List Char → Option (JValue × List Char)) (cs : List Char) :
    Option ((String × JValue) × List Char) :=
  match skipWs cs with
  | [] => none
  | q :: rest =>
    if q = '"' then
      (parseChars rest).bind fun k =>
      match skipWs k.2 with
      | [] => none
      | c :: rest2 =>
        if c = ':' then (pv rest2).map fun v => ((String.mk k.1, v.1), v.2)
        else none
    else none

/-- The members of an object after a member has been read: repeats
`, member` until the closing brace. -/
def parseMembersTail (pv : List Char → Option (JValue × List Char)) :
    Nat → List Char → Option (List (String × JValue) × List Char)
  | 0, _ => none
  | n + 1, cs =>
    match skipWs cs with
    | [] => none
    | c :: rest =>
      if c = '\x7d' then some ([], rest)
      else if c = ',' then
        (parseMember pv rest).bind fun m =>
        (parseMembersTail pv n m.2).map fun r => (m.1 :: r.1, r.2)
      else none

/-- An object after its opening brace. -/
def parseObject (pv : List Char → Option (JValue × List Char)) (cs : List Char) :
    Option (List (String × JValue) × List Char) :=
  match skipWs cs with
  | [] => none
  | c :: rest =>
    if c = '\x7d' then some ([], rest)
    else
      (parseMember pv (c :: rest)).bind fun m =>
      (parseMembersTail pv m.2.length m.2).map fun r => (m.1 :: r.1, r.2)

/-- A JSON value preceded by optional white space; the first argument bounds
the nesting depth. -/
def parseValue : Nat → List Char → Option (JValue × List Char)
  | 0, _ => none
  | fuel + 1, cs =>
    match skipWs cs with
    | [] => none
    | c :: rest =>
      if c = '\x7b' then (parseObject (parseValue fuel) rest).map fun r => (JValue.obj r.1, r.2)
      else if c = '[' then (parseArray (parseValue fuel) rest).map fun r => (JValue.arr r.1, r.2)
      else if c = '"' then (parseChars rest).map fun r => (JValue.str (String.mk r.1), r.2)
      else if c = 't' then (stripLit ['r', 'u', 'e'] rest).map fun r => (JValue.bool true, r)
      else if c = 'f' then (stripLit ['a', 'l', 's', 'e'] rest).map fun r => (JValue.bool false, r)
      else if c = 'n' then (stripLit ['u', 'l', 'l'] rest).map fun r => (JValue.null, r)
      else (parseNumber (c :: rest)).map fun r => (JValue.num (String.mk r.1), r.2)

/-- `JSON.parse(text)`: `none` stands for the `SyntaxError` it throws.  The
nesting depth of a text is below its length. -/
def jsonParse (text : String) : Option JValue :=
  match parseValue (text.length + 1) text.data with
  | none => none
  | some r => if skipWs r.2 = [] then some r.1 else none

/-- The task object denoted by a parsed value: an object with the own keys
`id` (a string), `text` (a string), `completed` (a boolean). -/
def decodeTask : JValue → Option Task
  | JValue.obj [(k1, JValue.str i), (k2, JValue.str t), (k3, JValue.bool c)] =>
    if k1 = "id" ∧ k2 = "text" ∧ k3 = "completed" then
      some { id := i, text := t, completed := c }
    else none
  | _ => none

/-- The task list denoted by a parsed value: an array of task objects. -/
def decodeTasks : JValue → Option (List Task)
  | JValue.arr elems => elems.mapM decodeTask
  | _ => none

/-- The value `JSON.parse` builds for the text of a task object. -/
def encodeTask (t : Task) : JValue :=
  JValue.obj [("id", JValue.str t.id), ("text", JValue.str t.text),
    ("completed", JValue.bool t.completed)]

/-! ## `AsyncStorage` -/

/-- `AsyncStorage.getItem(key)`: the stored string, `none` for `null`. -/
def getItem (key : String) (storage : List (String × String)) : Option String :=
  (storage.find? (fun kv => kv.1 = key)).map (fun kv => kv.2)

/-- `AsyncStorage.setItem(key, value)`: overwrites the entry of `key`. -/
def setItem (key value : String) (storage : List (String × String)) : List (String × String) :=
  (key, value) :: storage.filter (fun kv => kv.1 ≠ key)

/-- The effect `saveTasks`; `ok` tells whether `AsyncStorage.setItem` resolves
(`true`) or rejects (`false`). -/
def saveTasks (ok : Bool) (st : AppState) : AppState :=
  if ok then
    { st with storage := setItem "@tasks" (jsonStringify st.tasks) st.storage }
  else
    { st with errors := st.errors ++ ["Failed to save tasks"] }

/-- The effect `loadTasks`; `ok` tells whether `AsyncStorage.getItem` resolves
or rejects.  The result is `none` when `JSON.parse` returns a value that is not
a list of task objects, which the data model cannot hold. -/
def loadTasks (ok : Bool) (st : AppState) : Option AppState :=
  if ok then
    match getItem "@tasks" st.storage with
    | none => some st
    | some storedTasks =>
      if storedTasks = "" then some st
      else
        match jsonParse storedTasks with
        | none => some { st with errors := st.errors ++ ["Failed to load tasks"] }
        | some v =>
          match decodeTasks v with
          | some tasks => some { st with tasks := tasks }
          | none => none
  else
    some { st with errors := st.errors ++ ["Failed to load tasks"] }


/-! ## Runs of the component -/

/-- The user-visible events of the component. -/
inductive Action where
  | setTask (text : String) : Action
  | setFilter (f : String) : Action
  | addTask (now : Int) : Action
  | editTask (id newText : String) : Action
  | toggleTaskCompletion (id : String) : Action
  | deleteTask (id : String) : Action

/-- The handler run by an event. -/
def step (st : AppState) : Action → AppState
  | Action.setTask text => setTask text st
  | Action.setFilter f => setFilter f st
  | Action.addTask now => addTask now st
  | Action.editTask id newText => editTask id newText st
  | Action.toggleTaskCompletion id => toggleTaskCompletion id st
  | Action.deleteTask id => deleteTask id st

/-- The state after a sequence of events. -/
def run (st : AppState) (events : List Action) : AppState :=
  events.foldl step st

/-- The ids of the tasks of a state, in list order. -/
def taskIds (st : AppState) : List String :=
  st.tasks.map (fun t => t.id)

/-! ## `JSON.parse` on the output of `JSON.stringify` -/

theorem hex4_hexDigit : ∀ n < 32, hex4 '0' '0' (hexDigit (n / 16)) (hexDigit (n % 16)) = some n := by
  decide

theorem parseChars_quote (rest : List Char) : parseChars ('"' :: rest) = some ([], rest) := by
  rw [parseChars.eq_def]; simp

theorem parseChars_plain (c : Char) (rest : List Char) (h1 : c ≠ '"') (h2 : c ≠ '\\')
    (h3 : ¬ c.toNat < 0x20) :
    parseChars (c :: rest) = (parseChars rest).map (fun r => (c :: r.1, r.2)) := by
  rw [parseChars.eq_def]; simp [h1, h2, h3]

theorem parseChars_simple (e ch : Char) (rest : List Char) (h1 : e ≠ 'u')
    (h2 : unescape e = some ch) :
    parseChars ('\\' :: e :: rest) = (parseChars rest).map (fun r => (ch :: r.1, r.2)) := by
  rw [parseChars.eq_def]; simp [h1, h2]

theorem parseChars_unicode (a b x d : Char) (n : Nat) (rest : List Char)
    (h1 : hex4 a b x d = some n) (h2 : ¬ (0xD800 ≤ n ∧ n ≤ 0xDFFF)) :
    parseChars ('\\' :: 'u' :: a :: b :: x :: d :: rest)
      = (parseChars rest).map (fun r => (Char.ofNat n :: r.1, r.2)) := by
  rw [parseChars.eq_def]; simp [h1, h2]

theorem parseChars_escapeChar (c : Char) (tail : List Char) :
    parseChars (escapeChar c ++ tail) = (parseChars tail).map (fun r => (c :: r.1, r.2)) := by
  unfold escapeChar
  split_ifs with h1 h2 h3 h4 h5 h6 h7 h8
  · subst h1; exact parseChars_simple _ _ _ (by decide) (by decide)
  · subst h2; exact parseChars_simple _ _ _ (by decide) (by decide)
  · subst h3; exact parseChars_simple _ _ _ (by decide) (by decide)
  · subst h4; exact parseChars_simple _ _ _ (by decide) (by decide)
  · subst h5; exact parseChars_simple _ _ _ (by decide) (by decide)
  · subst h6; exact parseChars_simple _ _ _ (by decide) (by decide)
  · subst h7; exact parseChars_simple _ _ _ (by decide) (by decide)
  · have hx := hex4_hexDigit c.toNat h8
    have hs : ¬ (0xD800 ≤ c.toNat ∧ c.toNat ≤ 0xDFFF) := by omega
    have := parseChars_unicode _ _ _ _ _ tail hx hs
    simpa using this
  · exact parseChars_plain c tail h1 h2 h8

theorem parseChars_escapeChars (s rest : List Char) :
    parseChars (escapeChars s ++ '"' :: rest) = some (s, rest) := by
  induction s with
  | nil => simpa [escapeChars] using parseChars_quote rest
  | cons c cs ih =>
    simp only [escapeChars, List.append_assoc]
    rw [parseChars_escapeChar, ih]
    rfl

theorem skipWs_cons (c : Char) (rest : List Char) (h : isJsonWs c = false) :
    skipWs (c :: rest) = c :: rest := by
  simp [skipWs, List.dropWhile, h]

theorem parseValue_string (fuel : Nat) (s : String) (rest : List Char) :
    parseValue (fuel + 1) (quoteJSONString s ++ rest) = some (JValue.str s, rest) := by
  have h := parseChars_escapeChars s.data rest
  simp only [quoteJSONString, List.cons_append, List.append_assoc, List.singleton_append]
  rw [parseValue, skipWs_cons _ _ (by decide)]
  simp [h]

theorem parseValue_true (fuel : Nat) (rest : List Char) :
    parseValue (fuel + 1) ('t' :: 'r' :: 'u' :: 'e' :: rest) = some (JValue.bool true, rest) := by
  rw [parseValue, skipWs_cons _ _ (by decide)]
  simp [stripLit]

theorem parseValue_false (fuel : Nat) (rest : List Char) :
    parseValue (fuel + 1) ('f' :: 'a' :: 'l' :: 's' :: 'e' :: rest)
      = some (JValue.bool false, rest) := by
  rw [parseValue, skipWs_cons _ _ (by decide)]
  simp [stripLit]

theorem parseValue_bool (fuel : Nat) (b : Bool) (rest : List Char) :
    parseValue (fuel + 1) ((if b then ['t', 'r', 'u', 'e'] else ['f', 'a', 'l', 's', 'e']) ++ rest)
      = some (JValue.bool b, rest) := by
  cases b
  · exact parseValue_false fuel rest
  · exact parseValue_true fuel rest

theorem parseMember_quote (pv : List Char → Option (JValue × List Char)) (k : String)
    (tail : List Char) :
    parseMember pv (quoteJSONString k ++ ':' :: tail)
      = (pv tail).map (fun v => ((k, v.1), v.2)) := by
  have h := parseChars_escapeChars k.data (':' :: tail)
  simp only [quoteJSONString, List.cons_append, List.append_assoc, List.singleton_append]
  rw [parseMember, skipWs_cons _ _ (by decide)]
  simp [h, skipWs_cons ':' tail (by decide)]

theorem parseMembersTail_comma (pv : List Char → Option (JValue × List Char)) (n : Nat)
    (rest : List Char) :
    parseMembersTail pv (n + 1) (',' :: rest)
      = (parseMember pv rest).bind fun m =>
          (parseMembersTail pv n m.2).map fun r => (m.1 :: r.1, r.2) := by
  rw [parseMembersTail, skipWs_cons _ _ (by decide)]
  simp

theorem parseMembersTail_close (pv : List Char → Option (JValue × List Char)) (n : Nat)
    (rest : List Char) :
    parseMembersTail pv (n + 1) ('\x7d' :: rest) = some ([], rest) := by
  rw [parseMembersTail, skipWs_cons _ _ (by decide)]
  simp

theorem parseElementsTail_comma (pv : List Char → Option (JValue × List Char)) (n : Nat)
    (rest : List Char) :
    parseElementsTail pv (n + 1) (',' :: rest)
      = (pv rest).bind fun v =>
          (parseElementsTail pv n v.2).map fun r => (v.1 :: r.1, r.2) := by
  rw [parseElementsTail, skipWs_cons _ _ (by decide)]
  simp

theorem parseElementsTail_close (pv : List Char → Option (JValue × List Char)) (n : Nat)
    (rest : List Char) :
    parseElementsTail pv (n + 1) (']' :: rest) = some ([], rest) := by
  rw [parseElementsTail, skipWs_cons _ _ (by decide)]
  simp

theorem serializeTask_eq (t : Task) (rest : List Char) :
    serializeTask t ++ rest =
      '\x7b' :: (quoteJSONString "id" ++ ':' :: (quoteJSONString t.id ++
        ',' :: (quoteJSONString "text" ++ ':' :: (quoteJSONString t.text ++
        ',' :: (quoteJSONString "completed" ++ ':' ::
          ((if t.completed then ['t', 'r', 'u', 'e'] else ['f', 'a', 'l', 's', 'e']) ++
            '\x7d' :: rest)))))) := by
  simp [serializeTask, quoteJSONString, escapeChars, escapeChar]

theorem parseObject_quote (pv : List Char → Option (JValue × List Char)) (k : String)
    (tail : List Char) :
    parseObject pv (quoteJSONString k ++ tail)
      = (parseMember pv (quoteJSONString k ++ tail)).bind fun m =>
          (parseMembersTail pv m.2.length m.2).map fun r => (m.1 :: r.1, r.2) := by
  have e : quoteJSONString k ++ tail = '"' :: (escapeChars k.data ++ '"' :: tail) := by
    simp [quoteJSONString]
  rw [e, parseObject, skipWs_cons _ _ (by decide)]
  simp

theorem parseMembersTail_task (fuel n : Nat) (t : Task) (rest : List Char) (hn : 3 ≤ n) :
    parseMembersTail (parseValue (fuel + 1)) n
        (',' :: (quoteJSONString "text" ++ ':' :: (quoteJSONString t.text ++
          ',' :: (quoteJSONString "completed" ++ ':' ::
            ((if t.completed then ['t', 'r', 'u', 'e'] else ['f', 'a', 'l', 's', 'e']) ++
              '\x7d' :: rest)))))
      = some ([("text", JValue.str t.text), ("completed", JValue.bool t.completed)], rest) := by
  obtain ⟨m, rfl⟩ : ∃ m, n = m + 3 := ⟨n - 3, by omega⟩
  rw [parseMembersTail_comma, parseMember_quote, parseValue_string]
  simp only [Option.map_some', Option.some_bind]
  rw [parseMembersTail_comma, parseMember_quote, parseValue_bool]
  simp only [Option.map_some', Option.some_bind]
  rw [parseMembersTail_close]
  rfl

theorem parseValue_task (fuel : Nat) (t : Task) (rest : List Char) :
    parseValue (fuel + 2) (serializeTask t ++ rest) = some (encodeTask t, rest) := by
  rw [serializeTask_eq, parseValue, skipWs_cons _ _ (by decide)]
  simp only [↓reduceIte]
  rw [parseObject_quote, parseMember_quote, parseValue_string]
  simp only [Option.map_some', Option.some_bind]
  rw [parseMembersTail_task fuel _ t rest (by simp [quoteJSONString]; omega)]
  rfl

theorem serializeRest_length (ts : List Task) : ts.length ≤ (serializeRest ts).length := by
  induction ts with
  | nil => simp
  | cons t ts ih => simp [serializeRest]; omega

theorem parseElementsTail_tasks (fuel : Nat) (ts : List Task) (n : Nat) (rest : List Char)
    (hn : ts.length + 1 ≤ n) :
    parseElementsTail (parseValue (fuel + 2)) n (serializeRest ts ++ ']' :: rest)
      = some (ts.map encodeTask, rest) := by
  induction ts generalizing n with
  | nil =>
    obtain ⟨m, rfl⟩ : ∃ m, n = m + 1 := ⟨n - 1, by simp at hn; omega⟩
    simpa [serializeRest] using parseElementsTail_close (parseValue (fuel + 2)) m rest
  | cons t ts ih =>
    obtain ⟨m, rfl⟩ : ∃ m, n = m + 1 := ⟨n - 1, by simp at hn; omega⟩
    have hm : ts.length + 1 ≤ m := by simp at hn; omega
    simp only [serializeRest, List.cons_append, List.append_assoc]
    rw [parseElementsTail_comma, parseValue_task]
    simp only [Option.some_bind]
    rw [ih m hm]
    rfl

theorem parseArray_nonempty (pv : List Char → Option (JValue × List Char)) (c : Char)
    (r : List Char) (h1 : isJsonWs c = false) (h2 : c ≠ ']') :
    parseArray pv (c :: r)
      = (pv (c :: r)).bind fun v =>
          (parseElementsTail pv v.2.length v.2).map fun x => (v.1 :: x.1, x.2) := by
  rw [parseArray, skipWs_cons _ _ h1]
  simp [h2]

theorem parseArray_close (pv : List Char → Option (JValue × List Char)) (r : List Char) :
    parseArray pv (']' :: r) = some ([], r) := by
  rw [parseArray, skipWs_cons _ _ (by decide)]
  simp

theorem parseValue_tasks (fuel : Nat) (ts : List Task) (rest : List Char) :
    parseValue (fuel + 3) (serializeTasks ts ++ rest)
      = some (JValue.arr (ts.map encodeTask), rest) := by
  cases ts with
  | nil =>
    simp only [serializeTasks, List.cons_append, List.nil_append]
    rw [parseValue, skipWs_cons _ _ (by decide)]
    simp [parseArray_close]
  | cons t ts =>
    simp only [serializeTasks, List.cons_append, List.append_assoc, List.singleton_append,
      List.nil_append]
    rw [parseValue, skipWs_cons _ _ (by decide)]
    simp only [↓reduceIte]
    obtain ⟨r, hr⟩ : ∃ r, serializeTask t ++ (serializeRest ts ++ ']' :: rest) = '\x7b' :: r :=
      ⟨_, serializeTask_eq t _⟩
    have hdec : ('[' : Char) = '\x7b' ↔ False := by decide
    simp only [hdec, ↓reduceIte]
    rw [hr, parseArray_nonempty _ _ _ (by decide) (by decide), ← hr, parseValue_task]
    simp only [Option.some_bind]
    rw [parseElementsTail_tasks fuel ts _ rest
      (by have := serializeRest_length ts; simp; omega)]
    rfl

theorem decodeTask_encodeTask (t : Task) : decodeTask (encodeTask t) = some t := by
  simp [decodeTask, encodeTask]

theorem decodeTasks_encode (ts : List Task) :
    decodeTasks (JValue.arr (ts.map encodeTask)) = some ts := by
  simp only [decodeTasks]
  induction ts with
  | nil => rfl
  | cons t ts ih =>
    simp only [List.map_cons, List.mapM_cons, decodeTask_encodeTask, ih]
    rfl

theorem serializeTasks_length (ts : List Task) : 2 ≤ (serializeTasks ts).length := by
  cases ts with
  | nil => simp [serializeTasks]
  | cons t ts => simp [serializeTasks]; omega

theorem jsonParse_jsonStringify (ts : List Task) :
    jsonParse (jsonStringify ts) = some (JValue.arr (ts.map encodeTask)) := by
  have hl := serializeTasks_length ts
  obtain ⟨m, hm⟩ : ∃ m, (serializeTasks ts).length + 1 = m + 3 :=
    ⟨(serializeTasks ts).length - 2, by omega⟩
  have h := parseValue_tasks m ts []
  rw [List.append_nil] at h
  simp only [jsonParse, jsonStringify, String.length, hm, h]
  simp [skipWs]

theorem jsonStringify_ne_empty (ts : List Task) : jsonStringify ts ≠ "" := by
  intro h
  have h2 := congrArg String.length h
  have hl := serializeTasks_length ts
  simp [jsonStringify, String.length] at h2
  rw [h2] at hl
  simp at hl

theorem getItem_setItem (key value : String) (storage : List (String × String)) :
    getItem key (setItem key value storage) = some value := by
  simp [getItem, setItem]


/-! ## White space and `trim` -/

theorem dropWhile_eq_nil_of_trim_nil (p : Char → Bool) (l : List Char)
    (h : ((l.dropWhile p).reverse.dropWhile p).reverse = []) : l.dropWhile p = [] := by
  have h1 : ∀ c ∈ l.dropWhile p, p c = true := by simpa using h
  cases hd : l.dropWhile p with
  | nil => rfl
  | cons a t =>
    have ha : p a = true := h1 a (by rw [hd]; exact List.mem_cons_self a t)
    have hne : l.dropWhile p ≠ [] := by rw [hd]; exact List.cons_ne_nil a t
    have hn := List.head_dropWhile_not p l hne
    simp [hd, ha] at hn

/-- The trimmed form of a string is empty exactly when every character of the
string is white space. -/
theorem jsTrim_eq_empty_iff (s : String) :
    jsTrim s = "" ↔ ∀ c ∈ s.data, isJsWhiteSpace c = true := by
  unfold jsTrim
  constructor
  · intro h
    have h1 : ((s.data.dropWhile isJsWhiteSpace).reverse.dropWhile isJsWhiteSpace).reverse
        = [] := by
      have := congrArg String.data h
      simpa using this
    have h2 := dropWhile_eq_nil_of_trim_nil _ _ h1
    simpa using h2
  · intro h
    have : s.data.dropWhile isJsWhiteSpace = [] := by simpa using h
    rw [this]; rfl

/-! ## `addTask` -/

/-- C1: when the trimmed input text is non-empty, `addTask` yields the old task
list followed by one new task: the list is exactly one longer, its earlier
tasks are the old list in the same order, and the new last task has the input
text (untrimmed) as `text` and `completed = false`; no alert is raised. -/
theorem addTask_appends (now : Int) (st : AppState) (h : jsTrim st.task ≠ "") :
    (addTask now st).tasks
        = st.tasks ++ [{ id := toString now, text := st.task, completed := false }]
    ∧ (addTask now st).tasks.length = st.tasks.length + 1
    ∧ (addTask now st).tasks.take st.tasks.length = st.tasks
    ∧ (∃ t, (addTask now st).tasks.getLast? = some t ∧ t.text = st.task ∧ t.completed = false)
    ∧ (addTask now st).alerts = st.alerts := by
  have e : (addTask now st).tasks
      = st.tasks ++ [{ id := toString now, text := st.task, completed := false }] := by
    simp [addTask, h]
  refine ⟨e, ?_, ?_, ?_, ?_⟩
  · rw [e]; simp
  · rw [e]; simp
  · rw [e]; exact ⟨⟨toString now, st.task, false⟩, by simp, rfl, rfl⟩
  · simp [addTask, h]

/-- Instance of `addTask_appends`: adding "buy milk" to the empty list. -/
theorem addTask_appends_witness :
    jsTrim (setTask "buy milk" (initialState [])).task ≠ "" ∧
    (addTask 1700000000000 (setTask "buy milk" (initialState []))).tasks
      = [{ id := "1700000000000", text := "buy milk", completed := false }] :=
  ⟨by decide,
   (addTask_appends 1700000000000 (setTask "buy milk" (initialState [])) (by decide)).1⟩

/-- C2: when the trimmed input text is empty, `addTask` raises the alert
"Task cannot be empty" and changes nothing else: the task list (length, tasks,
order) and every other part of the state are as before. -/
theorem addTask_blank_rejected (now : Int) (st : AppState) (h : jsTrim st.task = "") :
    (addTask now st).tasks = st.tasks
    ∧ (addTask now st).alerts = st.alerts ++ [("Error", "Task cannot be empty")]
    ∧ addTask now st = { st with alerts := st.alerts ++ [("Error", "Task cannot be empty")] } := by
  simp [addTask, h]

/-- Instance of `addTask_blank_rejected`: the input of three blanks on a list of
one task. -/
theorem addTask_blank_rejected_witness :
    jsTrim (setTask "   " (addTask 5 (setTask "a" (initialState [])))).task = "" ∧
    (addTask 6 (setTask "   " (addTask 5 (setTask "a" (initialState []))))).tasks
      = [{ id := "5", text := "a", completed := false }] ∧
    (addTask 6 (setTask "   " (addTask 5 (setTask "a" (initialState []))))).alerts
      = [("Error", "Task cannot be empty")] :=
  ⟨by decide,
   (addTask_blank_rejected 6 (setTask "   " (addTask 5 (setTask "a" (initialState []))))
      (by decide)).1.trans (by decide),
   (addTask_blank_rejected 6 (setTask "   " (addTask 5 (setTask "a" (initialState []))))
      (by decide)).2.1.trans (by decide)⟩

/-! ## Ids -/

theorem taskIds_editTask (id newText : String) (st : AppState) :
    taskIds (editTask id newText st) = taskIds st := by
  simp only [taskIds, editTask, List.map_map]
  apply List.map_congr_left
  intro a _
  by_cases e : a.id = id <;> simp [e]

theorem taskIds_toggleTaskCompletion (id : String) (st : AppState) :
    taskIds (toggleTaskCompletion id st) = taskIds st := by
  simp only [taskIds, toggleTaskCompletion, List.map_map]
  apply List.map_congr_left
  intro a _
  by_cases e : a.id = id <;> simp [e]

theorem taskIds_deleteTask (id : String) (st : AppState) :
    List.Sublist (taskIds (deleteTask id st)) (taskIds st) := by
  simp only [taskIds, deleteTask]
  exact (List.filter_sublist st.tasks).map _

/-- An `addTask` whose clock reading prints to a string that is not yet an id
keeps the ids pairwise different. -/
theorem addTask_nodup_of_fresh (now : Int) (st : AppState) (hn : (taskIds st).Nodup)
    (hf : toString now ∉ taskIds st) : (taskIds (addTask now st)).Nodup := by
  unfold addTask
  split_ifs with h
  · exact hn
  · simp only [taskIds, List.map_append, List.map_cons, List.map_nil]
    rw [List.nodup_append]
    refine ⟨hn, List.nodup_singleton _, ?_⟩
    intro a ha hb
    rw [List.mem_singleton] at hb
    subst hb
    exact hf ha

/-- C3 (fails on the code): two `addTask` calls that read the same value from
`Date.now()` put two tasks with the same id into the list. -/
theorem addTask_same_clock_duplicate_id :
    (run (initialState [])
      [Action.setTask "buy milk", Action.addTask 1700000000000,
       Action.setTask "walk dog", Action.addTask 1700000000000]).tasks
      = [{ id := "1700000000000", text := "buy milk", completed := false },
         { id := "1700000000000", text := "walk dog", completed := false }]
    ∧ ¬ (taskIds (run (initialState [])
      [Action.setTask "buy milk", Action.addTask 1700000000000,
       Action.setTask "walk dog", Action.addTask 1700000000000])).Nodup := by
  decide

/-! ## `deleteTask`, `toggleTaskCompletion`, `editTask` -/

/-- C4: `deleteTask(id)` yields exactly the tasks whose id differs from `id`, in
their original relative order; the result holds no task with that id, and when
no task has that id the state is unchanged. -/
theorem deleteTask_spec (id : String) (st : AppState) :
    (deleteTask id st).tasks = st.tasks.filter (fun item => decide (item.id ≠ id))
    ∧ (∀ t, t ∈ (deleteTask id st).tasks ↔ t ∈ st.tasks ∧ t.id ≠ id)
    ∧ (∀ t ∈ (deleteTask id st).tasks, t.id ≠ id)
    ∧ List.Sublist (deleteTask id st).tasks st.tasks
    ∧ ((∀ t ∈ st.tasks, t.id ≠ id) → deleteTask id st = st) := by
  refine ⟨rfl, ?_, ?_, ?_, ?_⟩
  · intro t; simp [deleteTask]
  · intro t ht
    simp [deleteTask] at ht
    exact ht.2
  · exact List.filter_sublist st.tasks
  · intro h
    have : st.tasks.filter (fun item => decide (item.id ≠ id)) = st.tasks := by
      rw [List.filter_eq_self]
      intro a ha
      simpa using h a ha
    simp only [deleteTask, this]

/-- C5: `toggleTaskCompletion(id)` keeps length and order; at every position a
task with that id has `completed` negated and `id`, `text` unchanged, a task
with another id is identical to before; when no task has that id the state is
unchanged. -/
theorem toggleTaskCompletion_spec (id : String) (st : AppState) :
    (toggleTaskCompletion id st).tasks.length = st.tasks.length
    ∧ (∀ (i : Nat) (h : i < st.tasks.length),
        ∃ h2 : i < (toggleTaskCompletion id st).tasks.length,
          ((st.tasks.get ⟨i, h⟩).id = id →
            (toggleTaskCompletion id st).tasks.get ⟨i, h2⟩ =
              { id := (st.tasks.get ⟨i, h⟩).id, text := (st.tasks.get ⟨i, h⟩).text,
                completed := !(st.tasks.get ⟨i, h⟩).completed })
          ∧ ((st.tasks.get ⟨i, h⟩).id ≠ id →
            (toggleTaskCompletion id st).tasks.get ⟨i, h2⟩ = st.tasks.get ⟨i, h⟩))
    ∧ ((∀ t ∈ st.tasks, t.id ≠ id) → toggleTaskCompletion id st = st) := by
  refine ⟨by simp [toggleTaskCompletion], ?_, ?_⟩
  · intro i h
    refine ⟨by simpa [toggleTaskCompletion] using h, ?_, ?_⟩
    · intro e
      simp only [List.get_eq_getElem] at e ⊢
      simp [toggleTaskCompletion, e]
    · intro e
      simp only [List.get_eq_getElem] at e ⊢
      simp [toggleTaskCompletion, e]
  · intro h
    have : st.tasks.map
        (fun item => if item.id = id then { item with completed := !item.completed } else item)
        = st.tasks := by
      conv_rhs => rw [← List.map_id st.tasks]
      apply List.map_congr_left
      intro a ha
      simp [h a ha]
    simp only [toggleTaskCompletion, this]

/-- C6: for a task `t` of the list, the first `toggleTaskCompletion(t.id)` puts
`t` with `completed` negated into the list, and the second call gives back the
state before the two calls: `t.completed` is restored and every other task is
unchanged. -/
theorem toggleTaskCompletion_twice (st : AppState) (t : Task) (h : t ∈ st.tasks) :
    { t with completed := !t.completed } ∈ (toggleTaskCompletion t.id st).tasks
    ∧ (toggleTaskCompletion t.id (toggleTaskCompletion t.id st)).tasks = st.tasks
    ∧ toggleTaskCompletion t.id (toggleTaskCompletion t.id st) = st := by
  have e : (st.tasks.map
        (fun item => if item.id = t.id then { item with completed := !item.completed }
          else item)).map
        (fun item => if item.id = t.id then { item with completed := !item.completed }
          else item)
        = st.tasks := by
    rw [List.map_map]
    conv_rhs => rw [← List.map_id st.tasks]
    apply List.map_congr_left
    intro a _
    obtain ⟨i, x, c⟩ := a
    by_cases e : i = t.id <;> simp [e]
  refine ⟨?_, ?_, ?_⟩
  · simp only [toggleTaskCompletion, List.mem_map]
    exact ⟨t, h, by simp⟩
  · simp only [toggleTaskCompletion, e]
  · simp only [toggleTaskCompletion, e]

/-- Instance of `toggleTaskCompletion_twice`: toggling "buy milk" twice in a
list of two tasks. -/
theorem toggleTaskCompletion_twice_witness :
    toggleTaskCompletion "1"
      (toggleTaskCompletion "1"
        { initialState [] with
          tasks := [{ id := "1", text := "buy milk", completed := false },
                    { id := "2", text := "walk dog", completed := true }] })
    = { initialState [] with
          tasks := [{ id := "1", text := "buy milk", completed := false },
                    { id := "2", text := "walk dog", completed := true }] } :=
  (toggleTaskCompletion_twice
    { initialState [] with
      tasks := [{ id := "1", text := "buy milk", completed := false },
                { id := "2", text := "walk dog", completed := true }] }
    { id := "1", text := "buy milk", completed := false } (by decide)).2.2

/-- C7: `editTask(id, newText)`, for any `newText` (the empty string included;
the text is neither trimmed nor validated), keeps length and order; at every
position a task with that id gets `text = newText` with `id` and `completed`
unchanged, a task with another id is identical to before; when no task has
that id the state is unchanged. -/
theorem editTask_spec (id newText : String) (st : AppState) :
    (editTask id newText st).tasks.length = st.tasks.length
    ∧ (∀ (i : Nat) (h : i < st.tasks.length),
        ∃ h2 : i < (editTask id newText st).tasks.length,
          ((st.tasks.get ⟨i, h⟩).id = id →
            (editTask id newText st).tasks.get ⟨i, h2⟩ =
              { id := (st.tasks.get ⟨i, h⟩).id, text := newText,
                completed := (st.tasks.get ⟨i, h⟩).completed })
          ∧ ((st.tasks.get ⟨i, h⟩).id ≠ id →
            (editTask id newText st).tasks.get ⟨i, h2⟩ = st.tasks.get ⟨i, h⟩))
    ∧ ((∀ t ∈ st.tasks, t.id ≠ id) → editTask id newText st = st) := by
  refine ⟨by simp [editTask], ?_, ?_⟩
  · intro i h
    refine ⟨by simpa [editTask] using h, ?_, ?_⟩
    · intro e
      simp only [List.get_eq_getElem] at e ⊢
      simp [editTask, e]
    · intro e
      simp only [List.get_eq_getElem] at e ⊢
      simp [editTask, e]
  · intro h
    have : st.tasks.map (fun item => if item.id = id then { item with text := newText } else item)
        = st.tasks := by
      conv_rhs => rw [← List.map_id st.tasks]
      apply List.map_congr_left
      intro a ha
      simp [h a ha]
    simp only [editTask, this]

/-! ## `applyFilter` -/

/-- C8: with filter 'all' `applyFilter` returns the task list itself; with
'completed' exactly the tasks with `completed = true`, with 'pending' exactly
the tasks with `completed = false`, each in the original relative order; the
call leaves the state, the task list included, as it was. -/
theorem applyFilter_spec (st : AppState) :
    (applyFilter (setFilter "all" st)).1 = st.tasks
    ∧ (applyFilter (setFilter "completed" st)).1 = st.tasks.filter (fun t => t.completed)
    ∧ (applyFilter (setFilter "pending" st)).1 = st.tasks.filter (fun t => !t.completed)
    ∧ (∀ t, t ∈ (applyFilter (setFilter "completed" st)).1 ↔ t ∈ st.tasks ∧ t.completed = true)
    ∧ (∀ t, t ∈ (applyFilter (setFilter "pending" st)).1 ↔ t ∈ st.tasks ∧ t.completed = false)
    ∧ List.Sublist (applyFilter (setFilter "completed" st)).1 st.tasks
    ∧ List.Sublist (applyFilter (setFilter "pending" st)).1 st.tasks
    ∧ (∀ s : AppState, (applyFilter s).2 = s) := by
  have hc : (applyFilter (setFilter "completed" st)).1
      = st.tasks.filter (fun t => t.completed) := by
    simp [applyFilter, setFilter]
  have hp : (applyFilter (setFilter "pending" st)).1
      = st.tasks.filter (fun t => !t.completed) := by
    simp [applyFilter, setFilter]
  refine ⟨by simp [applyFilter, setFilter], hc, hp, ?_, ?_, ?_, ?_, ?_⟩
  · intro t; rw [hc]; simp
  · intro t; rw [hp]; simp
  · rw [hc]; exact List.filter_sublist _
  · rw [hp]; exact List.filter_sublist _
  · intro s
    unfold applyFilter
    split_ifs <;> rfl

/-- C9: a task is returned for 'completed' or for 'pending' exactly when it is
returned for 'all', and no task is returned for both 'completed' and
'pending'. -/
theorem applyFilter_cover_disjoint (st : AppState) :
    (∀ t, (t ∈ (applyFilter (setFilter "completed" st)).1
            ∨ t ∈ (applyFilter (setFilter "pending" st)).1)
        ↔ t ∈ (applyFilter (setFilter "all" st)).1)
    ∧ (∀ t, ¬ (t ∈ (applyFilter (setFilter "completed" st)).1
              ∧ t ∈ (applyFilter (setFilter "pending" st)).1)) := by
  have hc : (applyFilter (setFilter "completed" st)).1
      = st.tasks.filter (fun t => t.completed) := by
    simp [applyFilter, setFilter]
  have hp : (applyFilter (setFilter "pending" st)).1
      = st.tasks.filter (fun t => !t.completed) := by
    simp [applyFilter, setFilter]
  have ha : (applyFilter (setFilter "all" st)).1 = st.tasks := by
    simp [applyFilter, setFilter]
  rw [hc, hp, ha]
  constructor
  · intro t
    cases hcmp : t.completed <;> simp [hcmp]
  · intro t
    cases hcmp : t.completed <;> simp [hcmp]

/-- The scenario of the specification: add "buy milk", add "walk dog", toggle
"buy milk"; 'pending' then lists "walk dog" and 'completed' lists "buy milk". -/
theorem scenario_buy_milk_walk_dog :
    ((applyFilter (run (initialState [])
        [Action.setTask "buy milk", Action.addTask 1, Action.setTask "walk dog",
         Action.addTask 2, Action.toggleTaskCompletion "1",
         Action.setFilter "pending"])).1.map (fun t => t.text) = ["walk dog"])
    ∧ ((applyFilter (run (initialState [])
        [Action.setTask "buy milk", Action.addTask 1, Action.setTask "walk dog",
         Action.addTask 2, Action.toggleTaskCompletion "1",
         Action.setFilter "completed"])).1.map (fun t => t.text) = ["buy milk"]) := by
  decide

/-! ## `saveTasks` then `loadTasks` -/

/-- C10: after `saveTasks` has stored a task list `x` (storage succeeding), the
key '@tasks' holds `JSON.stringify(x)`, and `loadTasks` (storage succeeding), run
in any component state over that storage, sets the task list to `x`: same ids,
texts, completed flags and order.  The empty list is included. -/
theorem saveTasks_loadTasks_roundtrip (x : List Task) (st st2 : AppState) :
    getItem "@tasks" (saveTasks true { st with tasks := x }).storage = some (jsonStringify x)
    ∧ loadTasks true { st2 with storage := (saveTasks true { st with tasks := x }).storage }
        = some { st2 with
                 storage := (saveTasks true { st with tasks := x }).storage
                 tasks := x } := by
  have hs : (saveTasks true { st with tasks := x }).storage
      = setItem "@tasks" (jsonStringify x) st.storage := by
    simp [saveTasks]
  refine ⟨by rw [hs, getItem_setItem], ?_⟩
  simp only [loadTasks, hs, getItem_setItem, ↓reduceIte, jsonStringify_ne_empty,
    jsonParse_jsonStringify, decodeTasks_encode]

/-- Evaluation of the round trip on a list with escaped characters. -/
theorem roundtrip_example :
    loadTasks true (initialState (saveTasks true
      { initialState [] with
        tasks := [{ id := "1", text := "say \"hi\"\n", completed := true },
                  { id := "2", text := "", completed := false }] }).storage)
    = some { initialState [("@tasks",
        "[\x7b\"id\":\"1\",\"text\":\"say \\\"hi\\\"\\n\",\"completed\":true\x7d,\x7b\"id\":\"2\",\"text\":\"\",\"completed\":false\x7d]")] with
        tasks := [{ id := "1", text := "say \"hi\"\n", completed := true },
                  { id := "2", text := "", completed := false }] } := by
  decide

end TodoList
